import Mathlib

/-!
Verification development for `SubjectivePdfToTextDataSource.py`, a batch
data source converting a single PDF file into a JSON document with
metadata and extracted per-page text.

The Python source is shallowly embedded below.  External collaborators
are modelled abstractly:

* the filesystem and the PyPDF2 parser are a `World`: a partial map from
  paths to file contents (`bytes`, modification time), a deterministic
  parsing function from file bytes to an optional parsed PDF (where
  `none` models `PdfReader` raising), and a per-path predicate telling
  whether opening the output file for writing succeeds;
* a parsed PDF (`PdfDoc`) is the list of its pages, each page being
  `Option String`: `none` models `page.extract_text()` raising, and
  `some t` models it returning the text `t` (the empty string models a
  falsy result);
* `hashlib.sha256` is modelled by a full executable SHA-256 over byte
  lists (`Nat` values `0..255`), with the streaming `update` calls
  modelled as accumulation of the byte stream;
* wall-clock timestamps (`datetime.now().isoformat()`) are threaded in
  as an explicit `now : String` parameter;
* Python machine integers do not overflow in this program (all counts
  are small); they are modelled as `Nat`.
-/

/-- Python's `sep.join(parts)`: parts interleaved with the separator. -/
def joinSep (sep : String) : List String → String
  | [] => ""
  | [a] => a
  | a :: b :: rest => a ++ sep ++ joinSep sep (b :: rest)

/-- Fuel-driven worker for `chunkBy` (the fuel is a Lean termination
artifact; it is always instantiated with the length of the list, which
bounds the number of nonempty chunks). -/
def chunkByFuel (n : Nat) : Nat → List Nat → List (List Nat)
  | 0, _ => []
  | _, [] => []
  | fuel + 1, a :: rest => (a :: rest).take n :: chunkByFuel n fuel ((a :: rest).drop n)

/-- Splits a byte list into consecutive chunks of `n` bytes (the last chunk
may be shorter).  Models `iter(lambda: f.read(n), b"")`. -/
def chunkBy (n : Nat) (l : List Nat) : List (List Nat) :=
  chunkByFuel n l.length l

/-- Truncation to a 32-bit word. -/
def w32 (x : Nat) : Nat := x % 4294967296

/-- Right rotation of a 32-bit word by `n` bits. -/
def rotr32 (n x : Nat) : Nat := w32 ((x >>> n) ||| (x <<< (32 - n)))

/-- SHA-256 Σ₀. -/
def bigSigma0 (x : Nat) : Nat := rotr32 2 x ^^^ rotr32 13 x ^^^ rotr32 22 x

/-- SHA-256 Σ₁. -/
def bigSigma1 (x : Nat) : Nat := rotr32 6 x ^^^ rotr32 11 x ^^^ rotr32 25 x

/-- SHA-256 σ₀. -/
def smallSigma0 (x : Nat) : Nat := rotr32 7 x ^^^ rotr32 18 x ^^^ (x >>> 3)

/-- SHA-256 σ₁. -/
def smallSigma1 (x : Nat) : Nat := rotr32 17 x ^^^ rotr32 19 x ^^^ (x >>> 10)

/-- SHA-256 `Ch(x, y, z)`; 32-bit complement written as xor with `2^32 - 1`. -/
def chFun (x y z : Nat) : Nat := (x &&& y) ^^^ ((x ^^^ 4294967295) &&& z)

/-- SHA-256 `Maj(x, y, z)`. -/
def majFun (x y z : Nat) : Nat := (x &&& y) ^^^ (x &&& z) ^^^ (y &&& z)

/-- The 64 SHA-256 round constants. -/
def sha256K : List Nat :=
  [1116352408, 1899447441, 3049323471, 3921009573, 961987163,
   1508970993, 2453635748, 2870763221, 3624381080, 310598401,
   607225278, 1426881987, 1925078388, 2162078206, 2614888103,
   3248222580, 3835390401, 4022224774, 264347078, 604807628,
   770255983, 1249150122, 1555081692, 1996064986, 2554220882,
   2821834349, 2952996808, 3210313671, 3336571891, 3584528711,
   113926993, 338241895, 666307205, 773529912, 1294757372,
   1396182291, 1695183700, 1986661051, 2177026350, 2456956037,
   2730485921, 2820302411, 3259730800, 3345764771, 3516065817,
   3600352804, 4094571909, 275423344, 430227734, 506948616,
   659060556, 883997877, 958139571, 1322822218, 1537002063,
   1747873779, 1955562222, 2024104815, 2227730452, 2361852424,
   2428436474, 2756734187, 3204031479, 3329325298]

/-- The SHA-256 initial hash value. -/
def sha256Init : List Nat :=
  [1779033703, 3144134277, 1013904242,
   2773480762, 1359893119, 2600822924,
   528734635, 1541459225]

/-- Big-endian assembly of four bytes into a 32-bit word. -/
def bytesToWordBE (b0 b1 b2 b3 : Nat) : Nat := ((b0 * 256 + b1) * 256 + b2) * 256 + b3

/-- The sixteen 32-bit words of one 64-byte block, big-endian. -/
def blockWords (block : List Nat) : List Nat :=
  (List.range 16).map fun i =>
    bytesToWordBE (block.getD (4 * i) 0) (block.getD (4 * i + 1) 0)
      (block.getD (4 * i + 2) 0) (block.getD (4 * i + 3) 0)

/-- Extends the message schedule by the given number of words. -/
def extendSchedule : Nat → List Nat → List Nat
  | 0, w => w
  | n + 1, w =>
    extendSchedule n (w ++ [w32 (smallSigma1 (w.getD (w.length - 2) 0) + w.getD (w.length - 7) 0 +
      smallSigma0 (w.getD (w.length - 15) 0) + w.getD (w.length - 16) 0)])

/-- The full 64-word message schedule of one block. -/
def messageSchedule (block : List Nat) : List Nat := extendSchedule 48 (blockWords block)

/-- One SHA-256 round on the 8-word working state. -/
def sha256Round (st : List Nat) (kw : Nat × Nat) : List Nat :=
  let a := st.getD 0 0
  let b := st.getD 1 0
  let c := st.getD 2 0
  let d := st.getD 3 0
  let e := st.getD 4 0
  let f := st.getD 5 0
  let g := st.getD 6 0
  let h := st.getD 7 0
  let t1 := w32 (h + bigSigma1 e + chFun e f g + kw.1 + kw.2)
  let t2 := w32 (bigSigma0 a + majFun a b c)
  [w32 (t1 + t2), a, b, c, w32 (d + t1), e, f, g]

/-- Compression of one 64-byte block into the running hash. -/
def compressBlock (h : List Nat) (block : List Nat) : List Nat :=
  let st := (sha256K.zip (messageSchedule block)).foldl sha256Round h
  (h.zip st).map fun p => w32 (p.1 + p.2)

/-- Big-endian 8-byte encoding of a natural number. -/
def be64 (n : Nat) : List Nat := (List.range 8).map fun i => (n >>> (8 * (7 - i))) % 256

/-- SHA-256 message padding: `0x80`, zeros to 56 mod 64, then the 64-bit
big-endian bit length. -/
def sha256pad (msg : List Nat) : List Nat :=
  msg ++ 128 :: List.replicate ((119 - msg.length % 64) % 64) 0 ++ be64 (8 * msg.length)

/-- The eight 32-bit words of the SHA-256 digest of a byte list. -/
def sha256Words (msg : List Nat) : List Nat :=
  (chunkBy 64 (sha256pad msg)).foldl compressBlock sha256Init

/-- Lowercase hexadecimal digit for a value below 16. -/
def hexDigit (n : Nat) : Char := if n < 10 then Char.ofNat (48 + n) else Char.ofNat (87 + n)

/-- Lowercase hexadecimal SHA-256 digest of a byte list: what
`hashlib.sha256(msg).hexdigest()` returns. -/
def sha256hexdigest (msg : List Nat) : String :=
  ⟨(sha256Words msg).flatMap fun x => (List.range 8).map fun i => hexDigit ((x >>> (4 * (7 - i))) % 16)⟩

/-- Recognizes a lowercase hexadecimal character `0-9a-f`. -/
def isLowerHexChar (c : Char) : Bool := (('0' ≤ c && c ≤ '9') || ('a' ≤ c && c ≤ 'f'))

/-- Python's `os.path.basename` for POSIX paths: everything after the last
slash. -/
def pathBasename (p : String) : String :=
  ⟨(p.data.reverse.takeWhile fun c => c ≠ '/').reverse⟩

/-- Python's `os.path.dirname` for POSIX paths: everything up to the last
slash, with trailing slashes stripped unless the head is all slashes. -/
def pathDirname (p : String) : String :=
  let head := (p.data.reverse.dropWhile fun c => c ≠ '/').reverse
  if head.isEmpty || head.all fun c => c = '/' then ⟨head⟩
  else ⟨(head.reverse.dropWhile fun c => c = '/').reverse⟩

/-- The stem of `os.path.splitext` on a slash-free name: the part before the
last dot, except that a name whose part before the last dot is all dots
(such as `.bashrc`) has no extension. -/
def splitextStem (b : List Char) : List Char :=
  let extRev := b.reverse.takeWhile fun c => c ≠ '.'
  if extRev.length = b.length then b
  else
    let stem := (b.reverse.drop (extRev.length + 1)).reverse
    if stem.all fun c => c = '.' then b else stem

/-- Python's `os.path.join(a, b)` for POSIX paths (two arguments). -/
def pathJoin (a b : String) : String :=
  if b.data.head? = some '/' then b
  else if a = "" ∨ a.data.getLast? = some '/' then a ++ b
  else a ++ "/" ++ b

/-- Boolean prefix test on character lists. -/
def listIsPrefixB : List Char → List Char → Bool
  | [], _ => true
  | _ :: _, [] => false
  | a :: as, b :: bs => a == b && listIsPrefixB as bs

/-- Python's `s.endswith(suf)`: the reversed suffix is a prefix of the
reversed string. -/
def endsWithStr (s suf : String) : Bool := listIsPrefixB suf.data.reverse s.data.reverse

/-- Python's `s.lower()` on ASCII text: character-wise lowercasing. -/
def strToLower (s : String) : String := ⟨s.data.map Char.toLower⟩

/-- One page of a parsed PDF, as seen through `page.extract_text()`:
`none` models the call raising, `some t` models it returning `t`
(`some ""` is a falsy result, which the source skips like an error). -/
structure PdfDoc where
  pages : List (Option String)
deriving DecidableEq

/-- The contents the filesystem holds for one existing regular file. -/
structure FileInfo where
  bytes : List Nat
  mtime : String
deriving DecidableEq

/-- The external world: filesystem, PDF parser and output-write outcome.
`parsePdf` models `PdfReader` as a deterministic function of the file
bytes (`none` models the constructor raising); `writeOk` tells whether
opening and writing the output file at a path succeeds; `abspath`
models `os.path.abspath`. -/
structure World where
  files : String → Option FileInfo
  parsePdf : List Nat → Option PdfDoc
  writeOk : String → Bool
  abspath : String → String

/-- The configuration read from `params` in `__init__`. -/
structure Config where
  pdf_file_path : String
  output_file_path : String
  include_page_numbers : Bool
deriving DecidableEq

/-- One entry of `extracted_data['pages']`. -/
structure PageData where
  page_number : Nat
  text : String
  character_count : Nat
deriving DecidableEq

/-- The dictionary returned by `extract_text_from_pdf`. -/
structure ExtractedData where
  pages : List PageData
  full_text : String
  total_pages : Nat
  total_characters : Nat
deriving DecidableEq

/-- The `metadata` node of the output JSON. -/
structure Metadata where
  name : String
  data_type : String
  timestamp : String
  pdf_file_name : String
  pdf_file_path : String
  pdf_file_size : Nat
  pdf_file_hash : String
  pdf_modified_time : String
  total_pages : Nat
  total_characters : Nat
  pages_with_text : Nat
  extraction_timestamp : String
deriving DecidableEq

/-- The `content` node of the output JSON. -/
structure Content where
  full_text : String
  pages : List PageData
deriving DecidableEq

/-- The complete output JSON structure. -/
structure JsonStructure where
  metadata : Metadata
  content : Content
deriving DecidableEq

/-- The observable outcome of `fetch`: the returned list, plus the output
file write that happened (path and written document), if any. -/
structure FetchResult where
  result : List JsonStructure
  written : Option (String × JsonStructure)
deriving DecidableEq

/-- `validate_config` (source lines 61-90): checks that the PDF path is
nonempty, references an existing file and ends with `.pdf`
case-insensitively; on success fills in the default output path when it
is unset.  Returns the boolean outcome together with the (possibly
updated) configuration, modelling the mutation of
`self.output_file_path`. -/
def validate_config (w : World) (cfg : Config) : Bool × Config :=
  if cfg.pdf_file_path = "" then (false, cfg)
  else if (w.files cfg.pdf_file_path).isNone then (false, cfg)
  else if !endsWithStr (strToLower cfg.pdf_file_path) ".pdf" then (false, cfg)
  else if cfg.output_file_path = "" then
    let base_name : String := ⟨splitextStem (pathBasename cfg.pdf_file_path).data⟩
    let output_dir := if pathDirname cfg.pdf_file_path = "" then "." else pathDirname cfg.pdf_file_path
    (true, { cfg with output_file_path := pathJoin output_dir (base_name ++ ".json") })
  else (true, cfg)

/-- `is_valid_pdf` (source lines 92-100): false for a missing or zero-byte
file, and for a file `PdfReader` cannot parse. -/
def is_valid_pdf (w : World) (pdf_path : String) : Bool :=
  match w.files pdf_path with
  | none => false
  | some fi => if fi.bytes.length = 0 then false else (w.parsePdf fi.bytes).isSome

/-- `compute_file_hash` (source lines 102-112): reads the file in
4096-byte chunks, feeding each chunk to a SHA-256 accumulator (modelled
as accumulation of the byte stream), and returns the lowercase hex
digest; a failure to open the file is caught and turned into `""`. -/
def compute_file_hash (w : World) (file_path : String) : String :=
  match w.files file_path with
  | none => ""
  | some fi => sha256hexdigest ((chunkBy 4096 fi.bytes).foldl (fun acc block => acc ++ block) [])

/-- The page loop of `extract_text_from_pdf` (source lines 138-157),
started at 0-based page index `i`: collects `pages` entries and the
parallel `full_text_parts` list for pages whose extraction returns
non-empty text, skipping raising (`none`) and falsy (`some ""`)
pages. -/
def extractLoop : Nat → List (Option String) → List PageData × List String
  | _, [] => ([], [])
  | i, po :: rest =>
    let r := extractLoop (i + 1) rest
    match po with
    | some text => if text = "" then r else (⟨i + 1, text, text.length⟩ :: r.1, text :: r.2)
    | none => r

/-- `extract_text_from_pdf` (source lines 114-176) on an already parsed
document: runs the page loop, then assembles `full_text` (page
separators joined by newlines, or raw texts joined by blank lines) and
`total_characters`. -/
def extract_text_from_pdf (include_page_numbers : Bool) (doc : PdfDoc) : ExtractedData :=
  let total_pages := doc.pages.length
  let r := extractLoop 0 doc.pages
  let full_text :=
    if include_page_numbers then
      joinSep "\n" (r.1.flatMap fun page_data =>
        ["\n--- Page " ++ toString page_data.page_number ++ " ---\n", page_data.text])
    else
      joinSep "\n\n" r.2
  { pages := r.1, full_text := full_text, total_pages := total_pages,
    total_characters := full_text.length }

/-- `create_json_structure` (source lines 178-220).  `now` is the single
`datetime.now().isoformat()` value of line 196, used for both timestamp
fields.  The `os.stat` lookup defaults to an empty file; `fetch` only
reaches this call when the file exists, so the default is never
observable through `fetch`. -/
def create_json_structure (w : World) (now : String) (pdf_path : String)
    (extracted : ExtractedData) : JsonStructure :=
  let fi := (w.files pdf_path).getD { bytes := [], mtime := "" }
  let file_name := pathBasename pdf_path
  let file_base_name : String := ⟨splitextStem file_name.data⟩
  { metadata :=
      { name := file_base_name
        data_type := "from_pdf"
        timestamp := now
        pdf_file_name := file_name
        pdf_file_path := w.abspath pdf_path
        pdf_file_size := fi.bytes.length
        pdf_file_hash := compute_file_hash w pdf_path
        pdf_modified_time := fi.mtime
        total_pages := extracted.total_pages
        total_characters := extracted.total_characters
        pages_with_text := extracted.pages.length
        extraction_timestamp := now }
    content := { full_text := extracted.full_text, pages := extracted.pages } }

/-- `fetch` (source lines 222-284): validate the configuration, check PDF
integrity, extract, assemble and write.  Every guard failure, and every
exception caught by the top-level handler (unreadable file, parser
failure, failing output write), yields an empty result; the document
list is only populated after the successful write. -/
def fetch (w : World) (now : String) (cfg : Config) : FetchResult :=
  if !(validate_config w cfg).1 then ⟨[], none⟩
  else if !is_valid_pdf w (validate_config w cfg).2.pdf_file_path then ⟨[], none⟩
  else
    match w.files (validate_config w cfg).2.pdf_file_path with
    | none => ⟨[], none⟩
    | some fi =>
      match w.parsePdf fi.bytes with
      | none => ⟨[], none⟩
      | some pdoc =>
        if w.writeOk (validate_config w cfg).2.output_file_path then
          ⟨[create_json_structure w now (validate_config w cfg).2.pdf_file_path
              (extract_text_from_pdf (validate_config w cfg).2.include_page_numbers pdoc)],
            some ((validate_config w cfg).2.output_file_path,
              create_json_structure w now (validate_config w cfg).2.pdf_file_path
                (extract_text_from_pdf (validate_config w cfg).2.include_page_numbers pdoc))⟩
        else ⟨[], none⟩

/-- Unfolding equation of `joinSep` on a list with at least two parts. -/
theorem joinSep_cons₂ (sep a b : String) (rest : List String) :
    joinSep sep (a :: b :: rest) = a ++ sep ++ joinSep sep (b :: rest) := rfl

/-- Folding concatenation over the chunks of a list restores the list:
chunked reading loses no bytes. -/
theorem chunkByFuel_foldl (n : Nat) (hn : 0 < n) :
    ∀ (fuel : Nat) (l init : List Nat), l.length ≤ fuel →
      (chunkByFuel n fuel l).foldl (fun acc block => acc ++ block) init = init ++ l := by
  intro fuel
  induction fuel with
  | zero =>
    intro l init hl
    cases l with
    | nil => simp [chunkByFuel]
    | cons a rest => simp at hl
  | succ fuel ih =>
    intro l init hl
    cases l with
    | nil => simp [chunkByFuel]
    | cons a rest =>
      simp only [chunkByFuel, List.foldl_cons]
      rw [ih]
      · rw [List.append_assoc, List.take_append_drop]
      · simp only [List.length_drop, List.length_cons]
        simp only [List.length_cons] at hl
        omega

/-- `compute_file_hash` on an existing file is the SHA-256 hex digest of
the whole byte content: the 4096-byte chunking is lossless. -/
theorem compute_file_hash_some (w : World) (p : String) (fi : FileInfo)
    (hf : w.files p = some fi) : compute_file_hash w p = sha256hexdigest fi.bytes := by
  unfold compute_file_hash
  rw [hf]
  show sha256hexdigest ((chunkByFuel 4096 fi.bytes.length fi.bytes).foldl
    (fun acc block => acc ++ block) []) = _
  rw [chunkByFuel_foldl 4096 (by norm_num) fi.bytes.length fi.bytes [] (le_refl _)]
  simp

/-- Every hexadecimal digit produced by `hexDigit` on a value below 16 is a
lowercase hex character. -/
theorem hexDigit_isLowerHex (n : Nat) (h : n < 16) : isLowerHexChar (hexDigit n) = true := by
  interval_cases n <;> decide

/-- Every character of a SHA-256 hex digest is a lowercase hex character. -/
theorem sha256hexdigest_lower (msg : List Nat) :
    (sha256hexdigest msg).data.all isLowerHexChar = true := by
  rw [List.all_eq_true]
  intro c hc
  simp only [sha256hexdigest, List.mem_flatMap, List.mem_map] at hc
  obtain ⟨x, _, i, _, rfl⟩ := hc
  exact hexDigit_isLowerHex _ (by omega)

/-- The `full_text_parts` component of the page loop is the `text`
projection of its `pages` component. -/
theorem extractLoop_parts (l : List (Option String)) : ∀ i : Nat,
    (extractLoop i l).2 = (extractLoop i l).1.map fun pd => pd.text := by
  induction l with
  | nil => intro i; rfl
  | cons po rest ih =>
    intro i
    cases po with
    | none => simpa [extractLoop] using ih (i + 1)
    | some t =>
      by_cases ht : t = ""
      · simpa [extractLoop, ht] using ih (i + 1)
      · simpa [extractLoop, ht] using ih (i + 1)

/-- Every page entry produced by the page loop records the length of its
own text as `character_count`. -/
theorem extractLoop_char_count (l : List (Option String)) : ∀ (i : Nat) (pd : PageData),
    pd ∈ (extractLoop i l).1 → pd.character_count = pd.text.length := by
  induction l with
  | nil => intro i pd h; simp [extractLoop] at h
  | cons po rest ih =>
    intro i pd h
    cases po with
    | none => exact ih (i + 1) pd (by simpa [extractLoop] using h)
    | some t =>
      by_cases ht : t = ""
      · exact ih (i + 1) pd (by simpa [extractLoop, ht] using h)
      · simp only [extractLoop, ht, if_false] at h
        rcases (List.mem_cons).mp h with rfl | h2
        · rfl
        · exact ih (i + 1) pd h2

/-- The page numbers produced by the page loop started at index `i` are
strictly increasing and all exceed `i`. -/
theorem extractLoop_page_numbers_mono (l : List (Option String)) : ∀ i : Nat,
    List.Chain' (fun a b => a < b) ((extractLoop i l).1.map fun pd => pd.page_number) ∧
    ∀ m ∈ (extractLoop i l).1.map fun pd => pd.page_number, i < m := by
  induction l with
  | nil => intro i; simp [extractLoop]
  | cons po rest ih =>
    intro i
    cases po with
    | none =>
      refine ⟨by simpa [extractLoop] using (ih (i + 1)).1, fun m hm => ?_⟩
      have := (ih (i + 1)).2 m (by simpa [extractLoop] using hm)
      omega
    | some t =>
      by_cases ht : t = ""
      · refine ⟨by simpa [extractLoop, ht] using (ih (i + 1)).1, fun m hm => ?_⟩
        have := (ih (i + 1)).2 m (by simpa [extractLoop, ht] using hm)
        omega
      · simp only [extractLoop, ht, if_false, List.map_cons]
        constructor
        · rw [List.chain'_cons']
          refine ⟨fun y hy => ?_, (ih (i + 1)).1⟩
          have hmem : y ∈ (extractLoop (i + 1) rest).1.map fun pd => pd.page_number := by
            cases hhead : ((extractLoop (i + 1) rest).1.map fun pd => pd.page_number).head? with
            | none => simp [hhead] at hy
            | some z =>
              rw [hhead] at hy
              simp only [Option.mem_def, Option.some.injEq] at hy
              subst hy
              exact List.mem_of_mem_head? (by rw [hhead]; rfl)
          exact (ih (i + 1)).2 y hmem
        · intro m hm
          rcases (List.mem_cons).mp hm with rfl | h2
          · omega
          · have := (ih (i + 1)).2 m h2
            omega

/-- On a list of pages that all yield non-empty text, the page loop keeps
every page, numbering them consecutively from `i + 1`. -/
theorem extractLoop_all_good (l : List (Option String)) : ∀ i : Nat,
    (∀ po ∈ l, ∃ t, po = some t ∧ t ≠ "") →
    ((extractLoop i l).1.map fun pd => pd.page_number) =
      (List.range l.length).map fun k => i + 1 + k := by
  induction l with
  | nil => intro i _; simp [extractLoop]
  | cons po rest ih =>
    intro i hall
    obtain ⟨t, rfl, ht⟩ := hall po (by simp)
    simp only [extractLoop, ht, if_false, List.map_cons]
    rw [ih (i + 1) fun q hq => hall q (by simp [hq])]
    rw [List.length_cons, List.range_succ_eq_map, List.map_cons, List.map_map]
    refine congrArg₂ _ (by omega) ?_
    exact List.map_congr_left fun a _ => by simp [Function.comp]; omega

/-- On a list of pages that all raise or yield falsy text, the page loop
collects nothing. -/
theorem extractLoop_all_skip (l : List (Option String)) : ∀ i : Nat,
    (∀ po ∈ l, po = none ∨ po = some "") → extractLoop i l = ([], []) := by
  induction l with
  | nil => intro i _; rfl
  | cons po rest ih =>
    intro i hall
    rcases hall po (by simp) with rfl | rfl
    · simpa [extractLoop] using ih (i + 1) fun q hq => hall q (by simp [hq])
    · simpa [extractLoop] using ih (i + 1) fun q hq => hall q (by simp [hq])

/-- The page loop distributes over list append, shifting the start index. -/
theorem extractLoop_append (xs ys : List (Option String)) : ∀ i : Nat,
    extractLoop i (xs ++ ys) =
      ((extractLoop i xs).1 ++ (extractLoop (i + xs.length) ys).1,
       (extractLoop i xs).2 ++ (extractLoop (i + xs.length) ys).2) := by
  induction xs with
  | nil => intro i; simp [extractLoop]
  | cons po rest ih =>
    intro i
    have harith : i + 1 + rest.length = i + (rest.length + 1) := by omega
    cases po with
    | none =>
      simp only [List.cons_append, extractLoop, List.length_cons]
      rw [← harith]
      exact ih (i + 1)
    | some t =>
      by_cases ht : t = ""
      · simp only [List.cons_append, extractLoop, ht, if_true, List.length_cons]
        rw [← harith]
        exact ih (i + 1)
      · simp only [List.cons_append, extractLoop, ht, if_false, List.length_cons,
          List.append_eq]
        rw [← harith, ih (i + 1)]

/-- On pages that extract to the given non-empty texts, the page loop
returns exactly those texts, in order. -/
theorem extractLoop_map_some (ts : List String) : ∀ i : Nat, (∀ t ∈ ts, t ≠ "") →
    ((extractLoop i (ts.map some)).1.map fun pd => pd.text) = ts ∧
    (extractLoop i (ts.map some)).1.length = ts.length := by
  induction ts with
  | nil => intro i _; simp [extractLoop]
  | cons t rest ih =>
    intro i hall
    have ht : t ≠ "" := hall t (by simp)
    have := ih (i + 1) fun q hq => hall q (by simp [hq])
    simp only [List.map_cons, extractLoop, ht, if_false, List.map_cons, List.length_cons]
    exact ⟨by simp [this.1], by simp [this.2]⟩

/-- A pattern avoiding a character `c` that occurs inside `l₁ ++ c :: l₂`
lies entirely inside `l₁` or entirely inside `l₂`. -/
theorem isInfixSplit {p l₁ l₂ : List Char} {c : Char} (hc : c ∉ p)
    (h : p <:+: l₁ ++ c :: l₂) : p <:+: l₁ ∨ p <:+: l₂ := by
  obtain ⟨s, t, hst⟩ := h
  by_cases hle : s.length + p.length ≤ l₁.length
  · left
    have h1 : (l₁ ++ c :: l₂).take (s.length + p.length) = s ++ p := by
      rw [← hst, ← List.length_append, List.take_left]
    rw [List.take_append_of_le_length hle] at h1
    exact ⟨s, l₁.drop (s.length + p.length), by rw [← h1, List.take_append_drop]⟩
  · by_cases hge : l₁.length + 1 ≤ s.length
    · right
      have h2 : (l₁ ++ c :: l₂).drop s.length = p ++ t := by
        rw [← hst, List.append_assoc, List.drop_left]
      obtain ⟨k, hk⟩ : ∃ k, s.length = (l₁ ++ [c]).length + k :=
        ⟨s.length - (l₁.length + 1), by simp; omega⟩
      rw [List.append_cons l₁ c l₂, hk, List.drop_append k] at h2
      exact ⟨l₂.take k, t, by rw [List.append_assoc, ← h2, List.take_append_drop]⟩
    · exfalso
      have hidx : (l₁ ++ c :: l₂)[l₁.length]? = some c := by
        rw [List.getElem?_append_right (le_refl l₁.length)]
        simp
      rw [← hst, List.append_assoc,
        List.getElem?_append_right (by omega : s.length ≤ l₁.length),
        List.getElem?_append_left (by omega : l₁.length - s.length < p.length)] at hidx
      exact hc (List.getElem?_mem hidx)

/-- A nonempty pattern containing no newline that occurs in texts joined
by the blank-line separator `"\n\n"` must occur inside one of the
texts. -/
theorem joinSep_no_marker (pat : List Char) (hne : pat ≠ []) (hnl : '\n' ∉ pat) :
    ∀ texts : List String, (∀ s ∈ texts, ¬ pat <:+: s.data) →
      ¬ pat <:+: (joinSep "\n\n" texts).data := by
  intro texts
  induction texts with
  | nil =>
    intro _ h
    exact hne (List.infix_nil.mp h)
  | cons a rest ih =>
    intro hall h
    cases rest with
    | nil => exact hall a (List.mem_singleton_self a) h
    | cons b rest2 =>
      rw [joinSep_cons₂] at h
      have hnn : ("\n\n" : String).data = ['\n', '\n'] := rfl
      have hd : (a ++ "\n\n" ++ joinSep "\n\n" (b :: rest2)).data
          = a.data ++ '\n' :: '\n' :: (joinSep "\n\n" (b :: rest2)).data := by
        rw [String.data_append, String.data_append, hnn]
        simp
      rw [hd] at h
      rcases isInfixSplit hnl h with h1 | h2
      · exact hall a (by simp) h1
      · have h2' : pat <:+: ([] : List Char) ++ '\n' :: (joinSep "\n\n" (b :: rest2)).data := by
          simpa using h2
        rcases isInfixSplit hnl h2' with h3 | h4
        · exact hne (List.infix_nil.mp h3)
        · exact ih (fun s hs => hall s (by simp [hs])) h4

/-- `validate_config` never changes the PDF path or the page-number flag. -/
theorem validate_config_preserves (w : World) (cfg : Config) :
    (validate_config w cfg).2.pdf_file_path = cfg.pdf_file_path ∧
    (validate_config w cfg).2.include_page_numbers = cfg.include_page_numbers := by
  unfold validate_config
  split_ifs <;> simp

/-- `fetch` either fails outright (empty result, nothing written) or
returns exactly the document assembled from the parsed PDF, after a
successful write to the resolved output path. -/
theorem fetch_cases (w : World) (now : String) (cfg : Config) :
    fetch w now cfg = ⟨[], none⟩ ∨
    ∃ fi pdoc,
      w.files cfg.pdf_file_path = some fi ∧
      w.parsePdf fi.bytes = some pdoc ∧
      (validate_config w cfg).1 = true ∧
      w.writeOk (validate_config w cfg).2.output_file_path = true ∧
      fetch w now cfg =
        ⟨[create_json_structure w now cfg.pdf_file_path
            (extract_text_from_pdf cfg.include_page_numbers pdoc)],
          some ((validate_config w cfg).2.output_file_path,
            create_json_structure w now cfg.pdf_file_path
              (extract_text_from_pdf cfg.include_page_numbers pdoc))⟩ := by
  have hp := (validate_config_preserves w cfg).1
  have hq := (validate_config_preserves w cfg).2
  rcases Bool.eq_false_or_eq_true (validate_config w cfg).1 with h1 | h1
  case inr =>
    left
    simp [fetch, h1]
  rcases Bool.eq_false_or_eq_true
    (is_valid_pdf w (validate_config w cfg).2.pdf_file_path) with h2 | h2
  case inr =>
    left
    simp [fetch, h1, h2]
  cases hfi : w.files (validate_config w cfg).2.pdf_file_path with
  | none => exact absurd h2 (by simp [is_valid_pdf, hfi])
  | some fi =>
    cases hpd : w.parsePdf fi.bytes with
    | none => exact absurd h2 (by simp [is_valid_pdf, hfi, hpd])
    | some pdoc =>
      rw [hp] at hfi h2
      rcases Bool.eq_false_or_eq_true
        (w.writeOk (validate_config w cfg).2.output_file_path) with h3 | h3
      case inr =>
        left
        simp [fetch, h1, h2, hfi, hpd, h3, hp]
      right
      refine ⟨fi, pdoc, hfi, hpd, h1, h3, ?_⟩
      simp [fetch, h1, h2, hfi, hpd, h3, hp, hq]

/-- Inversion for a document returned by `fetch`: it is the assembled
document of the (unique) parse of the configured file's bytes. -/
theorem fetch_mem_inv {w : World} {now : String} {cfg : Config} {d : JsonStructure}
    (hd : d ∈ (fetch w now cfg).result) :
    ∃ fi pdoc,
      w.files cfg.pdf_file_path = some fi ∧
      w.parsePdf fi.bytes = some pdoc ∧
      d = create_json_structure w now cfg.pdf_file_path
            (extract_text_from_pdf cfg.include_page_numbers pdoc) := by
  rcases fetch_cases w now cfg with h | ⟨fi, pdoc, hfi, hpd, _, _, heq⟩
  · rw [h] at hd
    exact absurd hd (List.not_mem_nil d)
  · rw [heq] at hd
    simp at hd
    exact ⟨fi, pdoc, hfi, hpd, hd⟩

/-- Spec: the separator block emitted before a page's text when page
numbers are included: a separator line `"--- Page <n> ---"` framed by
newlines (`f"\n--- Page {n} ---\n"` in the source). -/
def page_separator (n : Nat) : String := "\n--- Page " ++ toString n ++ " ---\n"

/-- Spec: with `include_page_numbers` true, `full_text` is built by
emitting, for each successfully extracted page in order, its separator
line followed by its text, all blocks joined by newlines. -/
def specFullTextNumbered (pages : List PageData) : String :=
  joinSep "\n" (pages.flatMap fun p => [page_separator p.page_number, p.text])

/-- Spec: with `include_page_numbers` false, `full_text` is the raw
extracted texts of successful pages joined by the blank-line separator
`"\n\n"`. -/
def specFullTextPlain (pages : List PageData) : String :=
  joinSep "\n\n" (pages.map fun p => p.text)

/-- C2: for every extraction run, when `include_page_numbers` is true,
`full_text` is the pages' separator blocks (separator line plus page
text) joined by newlines; when false, it is the raw texts of successful
pages joined by blank lines; in both cases `total_characters` is the
length of the assembled `full_text`. -/
theorem extract_full_text_assembly (b : Bool) (doc : PdfDoc) :
    (extract_text_from_pdf b doc).full_text =
      (if b then specFullTextNumbered (extract_text_from_pdf b doc).pages
       else specFullTextPlain (extract_text_from_pdf b doc).pages) ∧
    (extract_text_from_pdf b doc).total_characters =
      (extract_text_from_pdf b doc).full_text.length := by
  cases b with
  | true => exact ⟨rfl, rfl⟩
  | false =>
    refine ⟨?_, rfl⟩
    simp only [extract_text_from_pdf, Bool.false_eq_true, if_false, specFullTextPlain]
    rw [extractLoop_parts]

/-- Boolean list prefix test agrees with the prefix relation. -/
theorem listIsPrefixB_iff : ∀ p l : List Char, listIsPrefixB p l = true ↔ p <+: l
  | [], l => by simp [listIsPrefixB]
  | _ :: _, [] => by simp [listIsPrefixB]
  | a :: as, b :: bs => by
    simp only [listIsPrefixB, Bool.and_eq_true, beq_iff_eq, List.cons_prefix_cons]
    exact and_congr Iff.rfl (listIsPrefixB_iff as bs)

/-- Python's `s.endswith(suf)` holds exactly when `s` decomposes as some
string followed by `suf`. -/
theorem endsWithStr_iff (s suf : String) :
    endsWithStr s suf = true ↔ ∃ t : String, s = t ++ suf := by
  unfold endsWithStr
  rw [listIsPrefixB_iff, List.reverse_prefix]
  constructor
  · rintro ⟨t, ht⟩
    refine ⟨⟨t⟩, ?_⟩
    apply String.ext
    rw [String.data_append]
    exact ht.symm
  · rintro ⟨t, rfl⟩
    exact ⟨t.data, by rw [String.data_append]⟩

/-- Spec: the default output path — the PDF's directory (the current
directory `"."` for a bare filename) joined with the PDF's basename
with its extension replaced by `".json"`. -/
def spec_default_output_path (p : String) : String :=
  pathJoin (if pathDirname p = "" then "." else pathDirname p)
    (String.mk (splitextStem (pathBasename p).data) ++ ".json")

/-- C4: `validate_config` returns false exactly when the PDF path is
empty, references no existing file, or does not end with `".pdf"`
case-insensitively; and when it returns true with the output path
unset, it resolves the output path to the PDF's directory joined with
the PDF's basename with its extension replaced by `".json"`. -/
theorem validate_config_spec (w : World) (cfg : Config) :
    ((validate_config w cfg).1 = false ↔
      cfg.pdf_file_path = "" ∨ w.files cfg.pdf_file_path = none ∨
        ¬ ∃ t : String, (strToLower cfg.pdf_file_path) = t ++ ".pdf") ∧
    ((validate_config w cfg).1 = true → cfg.output_file_path = "" →
      (validate_config w cfg).2.output_file_path =
        spec_default_output_path cfg.pdf_file_path) := by
  constructor
  · constructor
    · intro hfalse
      by_cases hempty : cfg.pdf_file_path = ""
      · exact Or.inl hempty
      by_cases hnone : w.files cfg.pdf_file_path = none
      · exact Or.inr (Or.inl hnone)
      by_cases hsuf : endsWithStr (strToLower cfg.pdf_file_path) ".pdf" = true
      · exfalso
        have htrue : (validate_config w cfg).1 = true := by
          unfold validate_config
          rw [if_neg hempty, if_neg (by simpa [Option.isNone_iff_eq_none] using hnone),
            if_neg (by simp [hsuf])]
          split_ifs <;> rfl
        rw [htrue] at hfalse
        exact absurd hfalse (by simp)
      · exact Or.inr (Or.inr fun hex => hsuf ((endsWithStr_iff _ _).mpr hex))
    · intro hdisj
      unfold validate_config
      rcases hdisj with h | h | h
      · rw [if_pos h]
      · by_cases hempty : cfg.pdf_file_path = ""
        · rw [if_pos hempty]
        · rw [if_neg hempty, if_pos (by simp [h])]
      · have hsufF : ¬(!endsWithStr (strToLower cfg.pdf_file_path) ".pdf") = false := by
          intro hc
          exact h ((endsWithStr_iff _ _).mp (by simpa using hc))
        by_cases hempty : cfg.pdf_file_path = ""
        · rw [if_pos hempty]
        by_cases hnone : (w.files cfg.pdf_file_path).isNone = true
        · rw [if_neg hempty, if_pos hnone]
        · have hsufT : (!endsWithStr (strToLower cfg.pdf_file_path) ".pdf") = true := by
            rcases Bool.eq_false_or_eq_true
              (!endsWithStr (strToLower cfg.pdf_file_path) ".pdf") with hb | hb
            · exact hb
            · exact absurd hb hsufF
          rw [if_neg hempty, if_neg hnone, if_pos hsufT]
  · intro hval hout
    unfold validate_config at hval ⊢
    by_cases hempty : cfg.pdf_file_path = ""
    · rw [if_pos hempty] at hval
      exact absurd hval (by simp)
    by_cases hnone : (w.files cfg.pdf_file_path).isNone = true
    · rw [if_neg hempty, if_pos hnone] at hval
      exact absurd hval (by simp)
    by_cases hsufB : (!endsWithStr (strToLower cfg.pdf_file_path) ".pdf") = true
    · rw [if_neg hempty, if_neg hnone, if_pos hsufB] at hval
      exact absurd hval (by simp)
    rw [if_neg hempty, if_neg hnone, if_neg hsufB, if_pos hout]
    rfl

/-- C6: `compute_file_hash` streams the file through the SHA-256
accumulator in 4096-byte chunks, which computes exactly the digest of
the file's whole byte content, rendered as lowercase hex; an unreadable
file yields the empty string instead of an exception. -/
theorem compute_file_hash_spec (w : World) (p : String) :
    (w.files p = none → compute_file_hash w p = "") ∧
    (∀ fi, w.files p = some fi →
      compute_file_hash w p = sha256hexdigest fi.bytes ∧
      (compute_file_hash w p).data.all isLowerHexChar = true) := by
  constructor
  · intro h
    unfold compute_file_hash
    rw [h]
  · intro fi h
    refine ⟨compute_file_hash_some w p fi h, ?_⟩
    rw [compute_file_hash_some w p fi h]
    exact sha256hexdigest_lower fi.bytes

/-- C1: for a PDF whose every page yields non-empty text, any document
returned by `fetch` reports `total_pages` and `pages_with_text` equal to
the page count, and `content.pages` has exactly that many entries whose
`page_number` values are `1..N` in increasing order. -/
theorem fetch_all_pages_spec (w : World) (now : String) (cfg : Config)
    (fi : FileInfo) (pdoc : PdfDoc)
    (hfi : w.files cfg.pdf_file_path = some fi)
    (hpd : w.parsePdf fi.bytes = some pdoc)
    (hall : ∀ po ∈ pdoc.pages, ∃ t, po = some t ∧ t ≠ "") :
    ∀ d ∈ (fetch w now cfg).result,
      d.metadata.total_pages = pdoc.pages.length ∧
      d.metadata.pages_with_text = pdoc.pages.length ∧
      d.content.pages.length = pdoc.pages.length ∧
      d.content.pages.map (fun pd => pd.page_number) =
        (List.range pdoc.pages.length).map fun k => k + 1 := by
  intro d hd
  obtain ⟨fi', pdoc', hfi', hpd', rfl⟩ := fetch_mem_inv hd
  rw [hfi] at hfi'
  injection hfi' with e1
  subst e1
  rw [hpd] at hpd'
  injection hpd' with e2
  subst e2
  have hmap := extractLoop_all_good pdoc.pages 0 hall
  have hmap' : ((extractLoop 0 pdoc.pages).1.map fun pd => pd.page_number) =
      (List.range pdoc.pages.length).map fun k => k + 1 := by
    rw [hmap]
    exact List.map_congr_left fun a _ => by omega
  have hlen : (extractLoop 0 pdoc.pages).1.length = pdoc.pages.length := by
    have := congrArg List.length hmap'
    simpa using this
  exact ⟨rfl, hlen, hlen, hmap'⟩

/-- C7: for a PDF in which exactly one interior page raises during
extraction while all other pages yield non-empty text, any document
returned by `fetch` still contains every other page's text in order,
and its `pages_with_text` is strictly less than its `total_pages`. -/
theorem fetch_interior_failure_spec (w : World) (now : String) (cfg : Config)
    (fi : FileInfo) (ts₁ ts₂ : List String)
    (hfi : w.files cfg.pdf_file_path = some fi)
    (hpd : w.parsePdf fi.bytes = some ⟨ts₁.map some ++ none :: ts₂.map some⟩)
    (_hn₁ : ts₁ ≠ []) (_hn₂ : ts₂ ≠ [])
    (hall : ∀ t ∈ ts₁ ++ ts₂, t ≠ "") :
    ∀ d ∈ (fetch w now cfg).result,
      d.content.pages.map (fun pd => pd.text) = ts₁ ++ ts₂ ∧
      d.metadata.pages_with_text < d.metadata.total_pages := by
  intro d hd
  obtain ⟨fi', pdoc', hfi', hpd', rfl⟩ := fetch_mem_inv hd
  rw [hfi] at hfi'
  injection hfi' with e1
  subst e1
  rw [hpd] at hpd'
  injection hpd' with e2
  subst e2
  have happ := extractLoop_append (ts₁.map some) (none :: ts₂.map some) 0
  have h₁ := extractLoop_map_some ts₁ 0 fun t ht => hall t (List.mem_append.mpr (Or.inl ht))
  have h₂ := extractLoop_map_some ts₂ (0 + (ts₁.map some).length + 1)
    fun t ht => hall t (List.mem_append.mpr (Or.inr ht))
  have hskip : extractLoop (0 + (ts₁.map some).length) (none :: ts₂.map some) =
      extractLoop (0 + (ts₁.map some).length + 1) (ts₂.map some) := rfl
  have hpages : (extractLoop 0 (ts₁.map some ++ none :: ts₂.map some)).1 =
      (extractLoop 0 (ts₁.map some)).1 ++
        (extractLoop (0 + (ts₁.map some).length + 1) (ts₂.map some)).1 := by
    rw [happ, hskip]
  constructor
  · show ((extractLoop 0 (ts₁.map some ++ none :: ts₂.map some)).1.map fun pd => pd.text)
      = ts₁ ++ ts₂
    rw [hpages, List.map_append, h₁.1, h₂.1]
  · show (extractLoop 0 (ts₁.map some ++ none :: ts₂.map some)).1.length
      < (ts₁.map some ++ none :: ts₂.map some).length
    rw [hpages, List.length_append, h₁.2, h₂.2, List.length_append, List.length_cons]
    simp

/-- C9: a valid, parseable PDF from which no page yields text is treated
as success: `fetch` returns a single document with `pages_with_text`
zero, empty `full_text` and zero `total_characters`. -/
theorem fetch_empty_success_spec (w : World) (now : String) (cfg : Config)
    (fi : FileInfo) (pdoc : PdfDoc)
    (hpath : cfg.pdf_file_path ≠ "")
    (hfi : w.files cfg.pdf_file_path = some fi)
    (hsuf : endsWithStr (strToLower cfg.pdf_file_path) ".pdf" = true)
    (hbytes : fi.bytes ≠ [])
    (hpd : w.parsePdf fi.bytes = some pdoc)
    (hskip : ∀ po ∈ pdoc.pages, po = none ∨ po = some "")
    (hwrite : w.writeOk (validate_config w cfg).2.output_file_path = true) :
    ∃ d, (fetch w now cfg).result = [d] ∧
      d.metadata.pages_with_text = 0 ∧
      d.content.full_text = "" ∧
      d.metadata.total_characters = 0 := by
  have hp := (validate_config_preserves w cfg).1
  have hq := (validate_config_preserves w cfg).2
  have hval : (validate_config w cfg).1 = true := by
    unfold validate_config
    rw [if_neg hpath, if_neg (by simp [hfi]), if_neg (by simp [hsuf])]
    split_ifs <;> rfl
  have hvalid : is_valid_pdf w cfg.pdf_file_path = true := by
    simp [is_valid_pdf, hfi, hpd, List.length_eq_zero, hbytes]
  have hext : extract_text_from_pdf cfg.include_page_numbers pdoc =
      ⟨[], "", pdoc.pages.length, 0⟩ := by
    simp only [extract_text_from_pdf, extractLoop_all_skip pdoc.pages 0 hskip]
    split <;> rfl
  refine ⟨create_json_structure w now cfg.pdf_file_path
    (extract_text_from_pdf cfg.include_page_numbers pdoc), ?_, ?_, ?_, ?_⟩
  · simp [fetch, hval, hvalid, hp, hq, hfi, hpd, hwrite]
  · simp [create_json_structure, hext]
  · simp [create_json_structure, hext]
  · simp [create_json_structure, hext]

/-- C10: every document produced by `fetch` satisfies the internal
consistency invariants: `total_characters` equals the length of
`full_text`, `pages_with_text` equals the number of page entries, each
page entry's `character_count` equals the length of its own text, the
`page_number` values are strictly increasing, `data_type` is the
constant `"from_pdf"`, and `timestamp` equals `extraction_timestamp`. -/
theorem fetch_document_invariants (w : World) (now : String) (cfg : Config) :
    ∀ d ∈ (fetch w now cfg).result,
      d.metadata.total_characters = d.content.full_text.length ∧
      d.metadata.pages_with_text = d.content.pages.length ∧
      (∀ pd ∈ d.content.pages, pd.character_count = pd.text.length) ∧
      List.Chain' (fun a b => a < b) (d.content.pages.map fun pd => pd.page_number) ∧
      d.metadata.data_type = "from_pdf" ∧
      d.metadata.timestamp = d.metadata.extraction_timestamp := by
  intro d hd
  obtain ⟨fi, pdoc, _, _, rfl⟩ := fetch_mem_inv hd
  refine ⟨rfl, rfl, ?_, ?_, rfl, rfl⟩
  · intro pd hpd
    exact extractLoop_char_count pdoc.pages 0 pd hpd
  · exact (extractLoop_page_numbers_mono pdoc.pages 0).1

/-- C8: converting the same file twice with the same configuration but
different wall-clock timestamps yields documents with identical
`full_text` and identical `pdf_file_hash`; moreover the recorded hash
is a pure function of the file's bytes (their SHA-256 hex digest). -/
theorem fetch_idempotent_spec (w : World) (cfg : Config) (now₁ now₂ : String)
    (d₁ d₂ : JsonStructure)
    (hd₁ : d₁ ∈ (fetch w now₁ cfg).result)
    (hd₂ : d₂ ∈ (fetch w now₂ cfg).result) :
    d₁.content.full_text = d₂.content.full_text ∧
    d₁.metadata.pdf_file_hash = d₂.metadata.pdf_file_hash ∧
    ∀ fi, w.files cfg.pdf_file_path = some fi →
      d₁.metadata.pdf_file_hash = sha256hexdigest fi.bytes := by
  obtain ⟨fi₁, p₁, hf₁, hp₁, rfl⟩ := fetch_mem_inv hd₁
  obtain ⟨fi₂, p₂, hf₂, hp₂, rfl⟩ := fetch_mem_inv hd₂
  rw [hf₁] at hf₂
  injection hf₂ with e1
  subst e1
  rw [hp₁] at hp₂
  injection hp₂ with e2
  subst e2
  refine ⟨rfl, rfl, ?_⟩
  intro fi hfi
  rw [hf₁] at hfi
  injection hfi with e3
  subst e3
  exact compute_file_hash_some w cfg.pdf_file_path fi₁ hf₁

/-- C5: `fetch` is total and returns at most one document; a missing
file, a path not ending in `.pdf`, and a zero-byte file each yield an
empty result (with nothing written in the first two cases, and in fact
also in the third); and a returned document exists only after the
output write has succeeded. -/
theorem fetch_failure_spec (w : World) (now : String) (cfg : Config) :
    ((fetch w now cfg).result = [] ∨ ∃ d, (fetch w now cfg).result = [d]) ∧
    (w.files cfg.pdf_file_path = none → fetch w now cfg = ⟨[], none⟩) ∧
    (endsWithStr (strToLower cfg.pdf_file_path) ".pdf" = false → fetch w now cfg = ⟨[], none⟩) ∧
    (∀ fi, w.files cfg.pdf_file_path = some fi → fi.bytes = [] →
      fetch w now cfg = ⟨[], none⟩) ∧
    (∀ d, (fetch w now cfg).result = [d] →
      (fetch w now cfg).written = some ((validate_config w cfg).2.output_file_path, d) ∧
      w.writeOk (validate_config w cfg).2.output_file_path = true) := by
  have hp := (validate_config_preserves w cfg).1
  refine ⟨?_, ?_, ?_, ?_, ?_⟩
  · rcases fetch_cases w now cfg with h | ⟨_, _, _, _, _, _, heq⟩
    · exact Or.inl (by rw [h])
    · exact Or.inr ⟨_, by rw [heq]⟩
  · intro hnone
    have hval : (validate_config w cfg).1 = false := by
      unfold validate_config
      by_cases hempty : cfg.pdf_file_path = ""
      · rw [if_pos hempty]
      · rw [if_neg hempty, if_pos (by simp [hnone])]
    simp [fetch, hval]
  · intro hsuf
    have hval : (validate_config w cfg).1 = false := by
      unfold validate_config
      by_cases hempty : cfg.pdf_file_path = ""
      · rw [if_pos hempty]
      by_cases hnone : (w.files cfg.pdf_file_path).isNone = true
      · rw [if_neg hempty, if_pos hnone]
      · rw [if_neg hempty, if_neg hnone, if_pos (by simp [hsuf])]
    simp [fetch, hval]
  · intro fi hfi hb
    rcases Bool.eq_false_or_eq_true (validate_config w cfg).1 with hval | hval
    case inr => simp [fetch, hval]
    have hv : is_valid_pdf w (validate_config w cfg).2.pdf_file_path = false := by
      rw [hp]
      simp [is_valid_pdf, hfi, hb]
    simp [fetch, hval, hv]
  · intro d hres
    rcases fetch_cases w now cfg with h | ⟨fi, pdoc, hfi, hpd, _, hwr, heq⟩
    · rw [h] at hres
      exact absurd hres (by simp)
    · rw [heq] at hres ⊢
      simp at hres
      subst hres
      exact ⟨rfl, hwr⟩

/-- Occurrence inside a list extends to occurrence inside any right
extension of it. -/
theorem isInfixExtend {p l₁ : List Char} (h : p <:+: l₁) (l₂ : List Char) :
    p <:+: l₁ ++ l₂ := by
  obtain ⟨s, t, rfl⟩ := h
  exact ⟨s, t ++ l₂, by simp⟩

/-- Spec: the literal marker `"--- Page 1 ---"`, as a character list. -/
def page1marker : List Char := "--- Page 1 ---".data

/-- Counterexample input for C3: a two-page PDF whose first page raises
during extraction while the second yields text. -/
def pdfFirstPageFails : PdfDoc := ⟨[none, some "hello"]⟩

/-- Counterexample input for C3: a one-page PDF whose single page's own
text contains the page-1 marker. -/
def pdfMarkerInText : PdfDoc := ⟨[some "x --- Page 1 --- y"]⟩

/-- C3 (counterexample): the claim fails as stated in both directions.
With `include_page_numbers` true and at least one extracted page,
`full_text` need not contain `"--- Page 1 ---"` (here page 1 failed and
the only separator says page 2); and with the flag false, `full_text`
may well contain the marker (here a page's own text contains it). -/
theorem extract_page1_marker_cex :
    (1 ≤ (extract_text_from_pdf true pdfFirstPageFails).pages.length ∧
      ¬ page1marker <:+: (extract_text_from_pdf true pdfFirstPageFails).full_text.data) ∧
    (1 ≤ (extract_text_from_pdf false pdfMarkerInText).pages.length ∧
      page1marker <:+: (extract_text_from_pdf false pdfMarkerInText).full_text.data) := by
  decide

/-- C3 (amended): if `include_page_numbers` is true and the PDF's first
page yields non-empty text, `full_text` contains the literal substring
`"--- Page 1 ---"`; if `include_page_numbers` is false and no extracted
page's own text contains that substring, `full_text` does not contain
it. -/
theorem extract_page1_marker_spec (doc : PdfDoc) :
    ((∃ t rest, doc.pages = some t :: rest ∧ t ≠ "") →
      page1marker <:+: (extract_text_from_pdf true doc).full_text.data) ∧
    ((∀ pd ∈ (extract_text_from_pdf false doc).pages,
        ¬ page1marker <:+: pd.text.data) →
      ¬ page1marker <:+: (extract_text_from_pdf false doc).full_text.data) := by
  constructor
  · rintro ⟨t, rest, hdoc, ht⟩
    have hsep : ("\n--- Page " ++ toString 1 ++ " ---\n").data
        = '\n' :: page1marker ++ ['\n'] := by decide
    have hnl : ("\n" : String).data = ['\n'] := rfl
    simp only [extract_text_from_pdf, hdoc, extractLoop, ht, if_false, if_true,
      List.flatMap_cons, List.cons_append, List.nil_append, Nat.zero_add]
    rw [joinSep_cons₂, String.data_append, String.data_append, hsep, hnl]
    exact isInfixExtend (isInfixExtend ⟨['\n'], ['\n'], rfl⟩ _) _
  · intro hall h
    have hplain : (extract_text_from_pdf false doc).full_text =
        joinSep "\n\n" ((extract_text_from_pdf false doc).pages.map fun pd => pd.text) := by
      simp only [extract_text_from_pdf, Bool.false_eq_true, if_false]
      rw [extractLoop_parts]
    rw [hplain] at h
    refine joinSep_no_marker page1marker (by decide) (by decide) _ ?_ h
    intro s hs
    obtain ⟨pd, hpd, rfl⟩ := List.mem_map.mp hs
    exact hall pd hpd

/-- Example byte content of the witness PDF. -/
def exBytes : List Nat := [37, 80, 68, 70]

/-- Example byte content of the witness PDF with a failing interior page. -/
def exBytesMid : List Nat := [1, 2, 3]

/-- Example byte content of the witness PDF yielding no text. -/
def exBytesNoText : List Nat := [9]

/-- Example parsed document: two pages with non-empty text. -/
def exDoc : PdfDoc := ⟨[some "hello", some "world"]⟩

/-- Example parsed document: an interior page raises. -/
def exDocMid : PdfDoc := ⟨[some "alpha", none, some "beta"]⟩

/-- Example parsed document: no page yields text. -/
def exDocNoText : PdfDoc := ⟨[none, some ""]⟩

/-- Example file contents. -/
def exFi : FileInfo := ⟨exBytes, "2024-01-01T00:00:00"⟩

/-- Example file contents for the interior-failure PDF. -/
def exFiMid : FileInfo := ⟨exBytesMid, "2024-01-01T00:00:00"⟩

/-- Example file contents for the no-text PDF. -/
def exFiNoText : FileInfo := ⟨exBytesNoText, "2024-01-01T00:00:00"⟩

/-- Example world holding the three witness PDFs. -/
def exWorld : World where
  files p :=
    if p = "/docs/a.pdf" then some exFi
    else if p = "/docs/b.pdf" then some exFiMid
    else if p = "/docs/c.pdf" then some exFiNoText
    else none
  parsePdf b :=
    if b = exBytes then some exDoc
    else if b = exBytesMid then some exDocMid
    else if b = exBytesNoText then some exDocNoText
    else none
  writeOk _ := true
  abspath p := p

/-- Example configuration for the two-page PDF. -/
def exCfg : Config := ⟨"/docs/a.pdf", "", true⟩

/-- Example configuration for the interior-failure PDF. -/
def exCfgMid : Config := ⟨"/docs/b.pdf", "", true⟩

/-- Example configuration for the no-text PDF. -/
def exCfgNoText : Config := ⟨"/docs/c.pdf", "", false⟩

/-- The document the witness conversion produces. -/
def exDocJson : JsonStructure :=
  create_json_structure exWorld "T" "/docs/a.pdf" (extract_text_from_pdf true exDoc)

/-- The same conversion run at a different timestamp. -/
def exDocJsonU : JsonStructure :=
  create_json_structure exWorld "U" "/docs/a.pdf" (extract_text_from_pdf true exDoc)

/-- The document produced for the interior-failure PDF. -/
def exDocJsonMid : JsonStructure :=
  create_json_structure exWorld "T" "/docs/b.pdf" (extract_text_from_pdf true exDocMid)

/-- The witness conversion returns exactly its document. -/
theorem exDocJson_mem : exDocJson ∈ (fetch exWorld "T" exCfg).result := by
  rw [show (fetch exWorld "T" exCfg).result = [exDocJson] from rfl]
  exact List.mem_singleton_self _

/-- The witness conversion at the second timestamp returns its document. -/
theorem exDocJsonU_mem : exDocJsonU ∈ (fetch exWorld "U" exCfg).result := by
  rw [show (fetch exWorld "U" exCfg).result = [exDocJsonU] from rfl]
  exact List.mem_singleton_self _

/-- The interior-failure conversion returns exactly its document. -/
theorem exDocJsonMid_mem : exDocJsonMid ∈ (fetch exWorld "T" exCfgMid).result := by
  rw [show (fetch exWorld "T" exCfgMid).result = [exDocJsonMid] from rfl]
  exact List.mem_singleton_self _

/-- Witness for C1 at a concrete two-page PDF. -/
theorem fetch_all_pages_witness :
    exDocJson.metadata.total_pages = 2 ∧
    exDocJson.metadata.pages_with_text = 2 ∧
    exDocJson.content.pages.length = 2 ∧
    exDocJson.content.pages.map (fun pd => pd.page_number) = [1, 2] := by
  have hall : ∀ po ∈ exDoc.pages, ∃ t, po = some t ∧ t ≠ "" := by
    intro po hpo
    simp [exDoc] at hpo
    rcases hpo with rfl | rfl
    · exact ⟨"hello", rfl, by decide⟩
    · exact ⟨"world", rfl, by decide⟩
  exact fetch_all_pages_spec exWorld "T" exCfg exFi exDoc rfl rfl hall exDocJson exDocJson_mem

/-- Witness for C3 at a concrete one-page PDF. -/
theorem extract_page1_marker_witness :
    page1marker <:+: (extract_text_from_pdf true ⟨[some "alpha"]⟩).full_text.data ∧
    ¬ page1marker <:+: (extract_text_from_pdf false ⟨[some "alpha"]⟩).full_text.data :=
  ⟨(extract_page1_marker_spec ⟨[some "alpha"]⟩).1 ⟨"alpha", [], rfl, by decide⟩,
   (extract_page1_marker_spec ⟨[some "alpha"]⟩).2 (by decide)⟩

/-- Witness for C4 at a concrete configuration with unset output path. -/
theorem validate_config_witness :
    (validate_config exWorld exCfg).2.output_file_path =
      spec_default_output_path "/docs/a.pdf" :=
  (validate_config_spec exWorld exCfg).2 rfl rfl

/-- Witness for C5 at a missing path and at a non-`.pdf` path. -/
theorem fetch_failure_witness :
    fetch exWorld "T" ⟨"/docs/missing.pdf", "", true⟩ = ⟨[], none⟩ ∧
    fetch exWorld "T" ⟨"/docs/a.txt", "", true⟩ = ⟨[], none⟩ :=
  ⟨(fetch_failure_spec exWorld "T" ⟨"/docs/missing.pdf", "", true⟩).2.1 rfl,
   (fetch_failure_spec exWorld "T" ⟨"/docs/a.txt", "", true⟩).2.2.1 rfl⟩

/-- Witness for C6 at a concrete readable file. -/
theorem compute_file_hash_witness :
    compute_file_hash exWorld "/docs/a.pdf" = sha256hexdigest exBytes ∧
    (compute_file_hash exWorld "/docs/a.pdf").data.all isLowerHexChar = true :=
  (compute_file_hash_spec exWorld "/docs/a.pdf").2 exFi rfl

/-- Witness for C7 at a concrete PDF whose middle page raises. -/
theorem fetch_interior_failure_witness :
    exDocJsonMid.content.pages.map (fun pd => pd.text) = ["alpha", "beta"] ∧
    exDocJsonMid.metadata.pages_with_text < exDocJsonMid.metadata.total_pages :=
  fetch_interior_failure_spec exWorld "T" exCfgMid exFiMid ["alpha"] ["beta"] rfl rfl
    (by decide) (by decide) (by decide) exDocJsonMid exDocJsonMid_mem

/-- Witness for C8: two runs at distinct timestamps. -/
theorem fetch_idempotent_witness :
    exDocJson.content.full_text = exDocJsonU.content.full_text ∧
    exDocJson.metadata.pdf_file_hash = exDocJsonU.metadata.pdf_file_hash ∧
    exDocJson.metadata.pdf_file_hash = sha256hexdigest exBytes :=
  let h := fetch_idempotent_spec exWorld exCfg "T" "U" exDocJson exDocJsonU
    exDocJson_mem exDocJsonU_mem
  ⟨h.1, h.2.1, h.2.2 exFi rfl⟩

/-- Witness for C9 at a concrete parseable PDF with no extractable text. -/
theorem fetch_empty_success_witness :
    (fetch exWorld "T" exCfgNoText).result ≠ [] := by
  obtain ⟨d, hd, -, -, -⟩ := fetch_empty_success_spec exWorld "T" exCfgNoText exFiNoText
    exDocNoText (by decide) rfl rfl (by decide) rfl (by decide) rfl
  rw [hd]
  simp

/-- Witness for C10 at the concrete two-page conversion. -/
theorem fetch_document_invariants_witness :
    exDocJson.metadata.total_characters = exDocJson.content.full_text.length ∧
    exDocJson.metadata.pages_with_text = exDocJson.content.pages.length ∧
    List.Chain' (fun a b => a < b) (exDocJson.content.pages.map fun pd => pd.page_number) ∧
    exDocJson.metadata.data_type = "from_pdf" ∧
    exDocJson.metadata.timestamp = exDocJson.metadata.extraction_timestamp :=
  let h := fetch_document_invariants exWorld "T" exCfg exDocJson exDocJson_mem
  ⟨h.1, h.2.1, h.2.2.2.1, h.2.2.2.2.1, h.2.2.2.2.2⟩
